import Mathlib

/-!
Verification of the stockMonitor repository against its specification.

Part 1 embeds the frontend utility code that is present in the repository
sources (the error-handling utility `errorHandler` and the pagination logic
of the `useSubscriptions` hook).  Part 2 models the backend
NotificationBatcher described by the specification; the backend sources are
not part of the repository snapshot, so those definitions are written from
the specification text and are marked as such in their doc comments.
-/

namespace StockMonitor

/-! ## Error categorization (source: `errorHandler`, `categorizeError`) -/

/-- The `ERROR_TYPES` constants of the error-handling utility. -/
inductive ErrorType where
  | networkError
  | authFailed
  | serverError
  | timeoutE
  | validationError
  | rateLimited
  | forbiddenE
  | notFoundE
  | unknown
deriving DecidableEq, Repr

/-- Model of a JavaScript error object as read by `categorizeError`:
`error.code`, `error.message` and `error.response?.status`. -/
structure ErrJS where
  code : Option String
  message : Option String
  status : Option Nat
deriving DecidableEq, Repr

/-- Substring test on character lists, used to model `String.includes`. -/
def listHasSub (pat : List Char) : List Char → Bool
  | [] => pat.isPrefixOf ([] : List Char)
  | c :: t => pat.isPrefixOf (c :: t) || listHasSub pat t

/-- Model of JavaScript `s.includes(pat)`. -/
def strContains (s pat : String) : Bool := listHasSub pat.data s.data

/-- Model of the optional chain `error.message?.includes(pat)`. -/
def msgIncludes (m : Option String) (pat : String) : Bool :=
  match m with
  | some s => strContains s pat
  | none => false

/-- Embedding of `categorizeError`.  The global `navigator.onLine` read is
made explicit as the `online` parameter.  The `if (status)` guard of the
source treats a status of `0` as absent (falsy). -/
def categorizeError (online : Bool) (e : ErrJS) : ErrorType :=
  if !online then .networkError
  else if e.code == some "ECONNABORTED" || msgIncludes e.message "timeout" then .timeoutE
  else if e.code == some "NETWORK_ERROR" || msgIncludes e.message "Network Error" then .networkError
  else
    match e.status with
    | some s =>
      if s == 0 then .unknown
      else if s == 401 then .authFailed
      else if s == 403 then .forbiddenE
      else if s == 404 then .notFoundE
      else if s == 429 then .rateLimited
      else if s == 400 || s == 422 then .validationError
      else if 500 ≤ s then .serverError
      else .unknown
    | none => .unknown

/-- Embedding of the default `retryCondition` of `withRetry`: the error type
is one of `NETWORK_ERROR`, `TIMEOUT`, `SERVER_ERROR`. -/
def defaultRetryCondition (online : Bool) (e : ErrJS) : Bool :=
  match categorizeError online e with
  | .networkError => true
  | .timeoutE => true
  | .serverError => true
  | _ => false

/-- The source default for `maxRetries` in `withRetry`. -/
def defaultMaxRetries : Nat := 2

/-- Embedding of the retry loop of `withRetry`.  `op i` is the outcome of the
i-th invocation of `operation`; `left` is the number of retries still
allowed (`maxRetries - attempt` in the source).  The returned `Nat` counts
how many times the operation was invoked.  Delays and logging of the source
do not affect the result and are omitted. -/
def retryLoop {E A : Type} (op : Nat → Except E A) (cond : E → Bool) :
    Nat → Nat → Except E A × Nat
  | 0, attempt =>
    match op attempt with
    | .ok a => (.ok a, 1)
    | .error e => (.error e, 1)
  | left + 1, attempt =>
    match op attempt with
    | .ok a => (.ok a, 1)
    | .error e =>
      if cond e then
        let p := retryLoop op cond left (attempt + 1)
        (p.1, p.2 + 1)
      else (.error e, 1)

/-- Embedding of `withRetry operation {maxRetries, retryCondition}`:
the result together with the number of invocations of the operation. -/
def withRetryCount {E A : Type} (op : Nat → Except E A) (maxRetries : Nat)
    (cond : E → Bool) : Except E A × Nat :=
  retryLoop op cond maxRetries 0

/-! ## Input sanitization (source: `errorHandler`, `sanitizeInput`) -/

/-- JavaScript regex `\w` character class. -/
def isWordChar (c : Char) : Bool := c.isAlphanum || c == '_'

/-- Whitespace as removed by JavaScript `String.prototype.trim`. -/
def isJsWs (c : Char) : Bool :=
  c == ' ' || c == '\t' || c == '\n' || c == '\r' || c == '\x0b' ||
  c == '\x0c' || c == '\u00a0' || c == '\ufeff'

/-- Model of JavaScript `trim`: drop whitespace from both ends. -/
def jsTrim (l : List Char) : List Char :=
  ((l.dropWhile isJsWs).reverse.dropWhile isJsWs).reverse

/-- Global regex replacement by the empty string: scan left to right; on a
match of length `n+1` drop it and continue after it, otherwise keep one
character and continue.  The matcher `m` receives the remaining input and
returns the length of the match at its head, if any.  Fuel is the input
length, which bounds the number of steps. -/
def scanReplaceFuel (m : List Char → Option Nat) : Nat → List Char → List Char
  | _, [] => []
  | 0, l => l
  | fuel + 1, c :: rest =>
    match m (c :: rest) with
    | some (n + 1) => scanReplaceFuel m fuel (List.drop n rest)
    | _ => c :: scanReplaceFuel m fuel rest

/-- Global replacement of every match of `m` by the empty string. -/
def scanReplace (m : List Char → Option Nat) (l : List Char) : List Char :=
  scanReplaceFuel m l.length l

/-- Matcher for the literal regex `/javascript:/gi`. -/
def jsMatchAt (l : List Char) : Option Nat :=
  if (l.take 11).map Char.toLower = "javascript:".data then some 11 else none

/-- Matcher for `/on\w+=/gi`: `on`, then a maximal nonempty run of word
characters, then `=`.  Since `=` is not a word character, backtracking of
the greedy `\w+` cannot produce any other match. -/
def onAttrMatchAt (l : List Char) : Option Nat :=
  match l with
  | c1 :: c2 :: rest =>
    if c1.toLower == 'o' && c2.toLower == 'n' then
      let w := rest.takeWhile isWordChar
      if w.length > 0 then
        match rest.drop w.length with
        | '=' :: _ => some (2 + w.length + 1)
        | _ => none
      else none
    else none
  | _ => none

/-- Scan for the first occurrence of `</script>` (case-insensitive); `i` is
the index of the scan position inside the overall match, and the returned
value is the end index of the whole match. -/
def findCloseFrom : List Char → Nat → Option Nat
  | [], _ => none
  | c :: rest, i =>
    if ((c :: rest).take 9).map Char.toLower = "</script>".data then some (i + 9)
    else findCloseFrom rest (i + 1)

/-- Matcher for `/<script\b[^<]*(?:(?!<\/script>)<[^<]*)*<\/script>/gi`:
`<script` followed by a word boundary, extending to the first subsequent
`</script>` (the inner loop of the regex cannot consume a `<` that starts
the closing tag, so the match always ends at the first closing tag). -/
def scriptMatchAt (l : List Char) : Option Nat :=
  if (l.take 7).map Char.toLower = "<script".data then
    match l.get? 7 with
    | some c => if isWordChar c then none else findCloseFrom (l.drop 7) 7
    | none => none
  else none

/-- The three replacement passes of `sanitizeInput`, in source order. -/
def stripAll (l : List Char) : List Char :=
  scanReplace onAttrMatchAt (scanReplace jsMatchAt (scanReplace scriptMatchAt l))

/-- Embedding of the string branch of `sanitizeInput`. -/
def sanitizeString (s : String) : String :=
  String.mk (jsTrim (stripAll s.data))

/-- A JavaScript value as far as `sanitizeInput` distinguishes them. -/
inductive JSValue where
  | str (s : String)
  | num (n : Int)
  | boolv (b : Bool)
  | nullv
  | undef
deriving DecidableEq, Repr

/-- Embedding of `sanitizeInput`: strings are stripped and trimmed, every
other value is returned unchanged. -/
def sanitizeInput : JSValue → JSValue
  | .str s => .str (sanitizeString s)
  | v => v

/-! ## Pagination state of the `useSubscriptions` hook -/

/-- A subscription list item as far as `deleteSubscription` inspects it. -/
structure SubItem where
  id : Nat
deriving DecidableEq, Repr

/-- The hook state touched by `deleteSubscription`. -/
structure HookState where
  subscriptions : List SubItem
  totalCount : Nat
  currentPage : Nat
deriving DecidableEq, Repr

/-- `Math.ceil(n / k)` for natural numbers (`totalPages` in the hook). -/
def jsCeilDiv (n k : Nat) : Nat := (n + k - 1) / k

/-- Embedding of the success path of `deleteSubscription`: the list is
filtered, `totalCount` is decremented, and `currentPage` is adjusted using
the pre-update `totalCount` captured by the closure, exactly as in the
source (the final `else` branch only reloads data and leaves the page
unchanged). -/
def deleteSubscriptionSuccess (itemsPerPage : Nat) (st : HookState) (id : Nat) :
    HookState :=
  let newSubs := st.subscriptions.filter (fun s => s.id != id)
  let newTotalCount := st.totalCount - 1
  let newTotalPages := jsCeilDiv (st.totalCount - 1) itemsPerPage
  let newPage :=
    if st.currentPage > newTotalPages ∧ newTotalPages > 0 then newTotalPages
    else if st.subscriptions.length = 1 ∧ st.currentPage > 1 then st.currentPage - 1
    else st.currentPage
  { subscriptions := newSubs, totalCount := newTotalCount, currentPage := newPage }

/-! ## NotificationBatcher

Modelled from the spec: the backend notification pipeline (Django side) is
not part of the repository snapshot, only its frontend callers are, so the
definitions below follow the specification text (sections 3 to 7). -/

/-- Modelled from the spec: the `Subscription` record of the data model
(section 3); the owner reference is irrelevant to the batcher and omitted. -/
structure Subscription where
  id : Nat
  ticker : String
  recipientEmail : String
  createdAt : Nat
  active : Bool
deriving DecidableEq, Repr

/-- Modelled from the spec: the status field of a `NotificationLog` row. -/
inductive LogStatus where
  | sent
  | failed
  | skipped
deriving DecidableEq, Repr

/-- Modelled from the spec: the channel field of a `NotificationLog` row. -/
inductive Channel where
  | scheduled
  | manual
deriving DecidableEq, Repr

/-- Modelled from the spec: a `NotificationLog` row (section 3), append-only. -/
structure NotificationLog where
  subscriptionId : Nat
  status : LogStatus
  channel : Channel
  detail : String
deriving DecidableEq, Repr

/-- Modelled from the spec: an ephemeral `PriceQuote` cache entry. -/
structure PriceQuote where
  ticker : String
  price : Int
  fetchedAt : Nat
deriving DecidableEq, Repr

/-- Modelled from the spec: a `Recommendation` cache entry, keyed by ticker
and price bucket. -/
structure RecEntry where
  ticker : String
  priceBucket : Int
  text : String
  fetchedAt : Nat
deriving DecidableEq, Repr

/-- Modelled from the spec: the two short-TTL caches of section 4.2. -/
structure Caches where
  price : List PriceQuote
  recs : List RecEntry
deriving DecidableEq, Repr

/-- Modelled from the spec: one transport submission — the recipient, the
rendered merged email (one line per subscription), and whether the
transport reported success. -/
structure SendRecord where
  recipient : String
  lines : List String
  ok : Bool
deriving DecidableEq, Repr

/-- Modelled from the spec: a wall-clock instant; `weekday` is 0 for Sunday
through 6 for Saturday, and `absMinutes` is an absolute minute count used
for cache freshness. -/
structure WallClock where
  weekday : Nat
  hour : Nat
  minute : Nat
  absMinutes : Nat
deriving DecidableEq, Repr

/-- Modelled from the spec: the run summary returned to a manual caller
(section 4.1, Result). -/
structure RunSummary where
  emailsSent : Nat
  subsSent : Nat
  subsFailed : Nat
  tickersUnavailable : Nat
deriving DecidableEq, Repr

/-- A summary distinguishes full success from degraded runs. -/
def isFullSuccess (s : RunSummary) : Bool :=
  decide (s.subsFailed = 0) && decide (s.tickersUnavailable = 0)

/-- Modelled from the spec: the outcome of the trigger surface (section 6):
a completed run with its summary, or one of the rejections
`ConcurrencyRejected` (already running), `NotFound`, or the batch-level
skip of an out-of-window scheduled run. -/
inductive RunOutcome where
  | completed (s : RunSummary)
  | alreadyRunning
  | notFound
  | skippedWindow
deriving DecidableEq, Repr

/-- Modelled from the spec: the trigger kinds of section 4.1. -/
inductive Trigger where
  | scheduled
  | manualSingle (id : Nat)
  | manualAdmin (filter : Subscription → Bool)

/-- A trigger that bypasses business-hours gating. -/
def isManual : Trigger → Bool
  | .scheduled => false
  | _ => true

/-- Modelled from the spec: the external collaborators of section 6; a
`none` result models failure (including timeout) of the call, and the
transport returns whether the send succeeded. -/
structure Env where
  priceService : String → Option Int
  aiService : String → Int → Option String
  emailTransport : String → List String → Bool

/-- Modelled from the spec: the durable and process-wide state the batcher
touches — the store (subscriptions, append-only per-subscription log), the
batch-level log, the run-in-progress flag, the two caches, and the emails
handed to the transport so far. -/
structure SystemState where
  subscriptions : List Subscription
  logs : List NotificationLog
  batchLog : List String
  outbox : List SendRecord
  running : Bool
  priceCache : List PriceQuote
  recCache : List RecEntry
deriving DecidableEq, Repr

/-- Modelled from the spec: `isWithinBusinessWindow` (section 9): weekday,
09:00 to 17:00 in the fixed service timezone. -/
def isWithinBusinessWindow (t : WallClock) : Bool :=
  decide (1 ≤ t.weekday) && decide (t.weekday ≤ 5) &&
  decide (9 ≤ t.hour) && decide (t.hour < 17)

/-- Modelled from the spec: the cache TTL of 1 hour, in minutes. -/
def cacheTTL : Nat := 60

/-- Modelled from the spec: price rounding to cache granularity for the
recommendation cache key; the spec leaves the granularity open, so the
model uses the identity bucket. -/
def roundPrice (p : Int) : Int := p

/-- First cache entry for a ticker, newest first. -/
def priceFind (c : List PriceQuote) (tk : String) : Option PriceQuote :=
  c.find? (fun q => q.ticker == tk)

/-- First recommendation cache entry for a ticker and price bucket. -/
def recFind (c : List RecEntry) (tk : String) (b : Int) : Option RecEntry :=
  c.find? (fun e => e.ticker == tk && e.priceBucket == b)

/-- A cache entry fetched more than `cacheTTL` ago is stale. -/
def isFresh (fetchedAt now : Nat) : Bool := decide (now - fetchedAt ≤ cacheTTL)

/-- Modelled from the spec: price enrichment for one ticker (section 4.2):
serve a fresh cache entry, otherwise call the external service; a failed
call populates nothing and evicts nothing.  Returns the quote (`none` =
unavailable), the updated cache, and the number of external calls made. -/
def fetchPrice (env : Env) (cache : List PriceQuote) (tk : String) (now : Nat) :
    Option Int × List PriceQuote × Nat :=
  match priceFind cache tk with
  | some q =>
    if isFresh q.fetchedAt now then (some q.price, cache, 0)
    else
      match env.priceService tk with
      | some p => (some p, ⟨tk, p, now⟩ :: cache, 1)
      | none => (none, cache, 1)
  | none =>
    match env.priceService tk with
    | some p => (some p, ⟨tk, p, now⟩ :: cache, 1)
    | none => (none, cache, 1)

/-- Modelled from the spec: recommendation enrichment for one ticker at a
known price (section 4.2), mirroring the price cache policy. -/
def fetchRec (env : Env) (cache : List RecEntry) (tk : String) (p : Int)
    (now : Nat) : Option String × List RecEntry :=
  match recFind cache tk (roundPrice p) with
  | some e =>
    if isFresh e.fetchedAt now then (some e.text, cache)
    else
      match env.aiService tk p with
      | some txt => (some txt, ⟨tk, roundPrice p, txt, now⟩ :: cache)
      | none => (none, cache)
  | none =>
    match env.aiService tk p with
    | some txt => (some txt, ⟨tk, roundPrice p, txt, now⟩ :: cache)
    | none => (none, cache)

/-- Agreement of two cache states on every key except the given ticker:
lookups for any other ticker coincide. -/
def cachesAgreeOff (T : String) (c1 c2 : Caches) : Prop :=
  (∀ tk, tk ≠ T → priceFind c1.price tk = priceFind c2.price tk) ∧
  (∀ tk b, tk ≠ T → recFind c1.recs tk b = recFind c2.recs tk b)

/-- The enrichment result for one distinct ticker of a run. -/
structure TickerInfo where
  ticker : String
  quote : Option Int
  recText : Option String
deriving DecidableEq, Repr

/-- Pointwise agreement of two enrichment entries away from a failing
ticker: same ticker, and equal entries when the ticker is not the failing
one. -/
def infoAgreeOff (T : String) (a b : TickerInfo) : Prop :=
  a.ticker = b.ticker ∧ (a.ticker ≠ T → a = b)

/-- Modelled from the spec: enrichment of one ticker — price first; only a
priced ticker gets a recommendation lookup (the AI service is called with
the price). -/
def enrichTicker (env : Env) (now : Nat) (cs : Caches) (tk : String) :
    TickerInfo × Caches × Nat :=
  match fetchPrice env cs.price tk now with
  | (none, pc, n) => (⟨tk, none, none⟩, ⟨pc, cs.recs⟩, n)
  | (some p, pc, n) =>
    match fetchRec env cs.recs tk p now with
    | (r, rc) => (⟨tk, some p, r⟩, ⟨pc, rc⟩, n)

/-- Modelled from the spec: enrichment of every distinct ticker of the run,
sequentially, threading the caches and counting external price calls. -/
def enrichAll (env : Env) (now : Nat) (cs : Caches) :
    List String → List TickerInfo × Caches × Nat
  | [] => ([], cs, 0)
  | tk :: rest =>
    match enrichTicker env now cs tk with
    | (info, cs1, n) =>
      match enrichAll env now cs1 rest with
      | (infos, cs2, m) => (info :: infos, cs2, n + m)

/-- Distinct elements of a list, in order of first occurrence. -/
def firstOccur : List String → List String
  | [] => []
  | e :: rest => e :: (firstOccur rest).filter (fun x => !(x == e))

/-- Modelled from the spec: grouping of the selected subscriptions by
recipient email, in insertion order of first occurrence (section 4). -/
def groupByRecipient (subs : List Subscription) : List (String × List Subscription) :=
  (firstOccur (subs.map (·.recipientEmail))).map
    (fun e => (e, subs.filter (fun s => s.recipientEmail == e)))

/-- Within a group, subscriptions are ordered by ticker then creation time. -/
def subLE (a b : Subscription) : Bool :=
  decide (a.ticker < b.ticker) ||
  (decide (a.ticker = b.ticker) && decide (a.createdAt ≤ b.createdAt))

/-- Insert into a sorted list. -/
def insertSorted (a : Subscription) : List Subscription → List Subscription
  | [] => [a]
  | b :: t => if subLE a b then a :: b :: t else b :: insertSorted a t

/-- Insertion sort by `subLE`, used to render a group deterministically. -/
def sortSubs : List Subscription → List Subscription
  | [] => []
  | a :: t => insertSorted a (sortSubs t)

/-- Enrichment data for a ticker within the run. -/
def infoFor (infos : List TickerInfo) (tk : String) : Option TickerInfo :=
  infos.find? (fun i => i.ticker == tk)

/-- Modelled from the spec: one line of the merged email — the ticker, its
price or `unavailable`, and the recommendation when present (section 4,
Rendering). -/
def renderLine (infos : List TickerInfo) (s : Subscription) : String :=
  match infoFor infos s.ticker with
  | some info =>
    match info.quote with
    | some p =>
      match info.recText with
      | some r => s.ticker ++ ": " ++ toString p ++ " | " ++ r
      | none => s.ticker ++ ": " ++ toString p
    | none => s.ticker ++ ": unavailable"
  | none => s.ticker ++ ": unavailable"

/-- Modelled from the spec: the send for one recipient group — render one
merged email over the group (sorted for determinism) and hand it to the
transport. -/
def groupSend (env : Env) (infos : List TickerInfo) (g : String × List Subscription) :
    SendRecord :=
  let lines := (sortSubs g.2).map (renderLine infos)
  ⟨g.1, lines, env.emailTransport g.1 lines⟩

/-- Modelled from the spec: the log rows for one recipient group — one row
per subscription of the group, `sent` when the group send succeeded and
`failed` otherwise, carrying the triggering channel (section 4, Logging). -/
def groupLogs (ch : Channel) (ok : Bool) (g : String × List Subscription) :
    List NotificationLog :=
  g.2.map (fun s => ⟨s.id, if ok then .sent else .failed, ch, ""⟩)

/-- Modelled from the spec: one batch run over the already-selected
subscriptions — enrich the distinct tickers, send one merged email per
recipient group, append one log row per subscription, and return the
summary (section 4.1).  The run-in-progress flag is held for the duration
of the run and released before returning. -/
def executeBatch (env : Env) (now : WallClock) (ch : Channel)
    (selected : List Subscription) (st : SystemState) : RunOutcome × SystemState :=
  let tickers := firstOccur (selected.map (·.ticker))
  let enr := enrichAll env now.absMinutes ⟨st.priceCache, st.recCache⟩ tickers
  let infos := enr.1
  let groups := groupByRecipient selected
  let results := groups.map (fun g =>
    let r := groupSend env infos g
    (r, groupLogs ch r.ok g))
  let sends := results.map (·.1)
  let newLogs := (results.map (·.2)).flatten
  let summary : RunSummary :=
    { emailsSent := (results.filter (fun r => r.1.ok)).length
      subsSent := (results.map (fun r => if r.1.ok then r.2.length else 0)).sum
      subsFailed := (results.map (fun r => if r.1.ok then 0 else r.2.length)).sum
      tickersUnavailable := (infos.filter (fun i => i.quote.isNone)).length }
  (.completed summary,
   { st with
      logs := st.logs ++ newLogs
      outbox := st.outbox ++ sends
      batchLog := st.batchLog ++ ["completed"]
      priceCache := enr.2.1.price
      recCache := enr.2.1.recs
      running := false })

/-- Modelled from the spec: the subscriptions a trigger selects
(section 4.1, Selection policy). -/
def selectedOf (tr : Trigger) (st : SystemState) : List Subscription :=
  match tr with
  | .scheduled => st.subscriptions.filter (·.active)
  | .manualSingle sid =>
    match st.subscriptions.find? (fun s => s.id == sid) with
    | some s => [s]
    | none => []
  | .manualAdmin f => st.subscriptions.filter (fun s => s.active && f s)

/-- Modelled from the spec: the trigger surface (sections 4.1, 5, 6).  A
trigger arriving while a run is in progress is rejected immediately with
no queueing; a `scheduled` trigger outside the business window is a no-op
logged as skipped only at the batch level; `manual-single` for an unknown
id is rejected with `NotFound` and writes nothing. -/
def runTrigger (env : Env) (now : WallClock) (tr : Trigger) (st : SystemState) :
    RunOutcome × SystemState :=
  if st.running then (.alreadyRunning, st)
  else
    match tr with
    | .scheduled =>
      if isWithinBusinessWindow now then
        executeBatch env now .scheduled (selectedOf .scheduled st) st
      else
        (.skippedWindow,
         { st with batchLog := st.batchLog ++ ["skipped: outside business window"] })
    | .manualSingle sid =>
      match st.subscriptions.find? (fun s => s.id == sid) with
      | some s => executeBatch env now .manual [s] st
      | none => (.notFound, st)
    | .manualAdmin f =>
      executeBatch env now .manual (selectedOf (.manualAdmin f) st) st

/-! ## Concrete instances used by the witness theorems -/

/-- An environment whose external calls all succeed. -/
def envEx : Env := ⟨fun _ => some 10, fun _ _ => some "hold", fun _ _ => true⟩

/-- An environment whose price fetch fails for the ticker `XYZ` only. -/
def envFailEx : Env :=
  ⟨fun tk => if tk == "XYZ" then none else some 10,
   fun _ _ => some "hold", fun _ _ => true⟩

/-- The counterpart of `envFailEx` whose fetch for `XYZ` succeeds. -/
def envOkEx : Env :=
  { priceService := fun tk => if tk == "XYZ" then some 42 else envFailEx.priceService tk
    aiService := envFailEx.aiService
    emailTransport := envFailEx.emailTransport }

/-- A sample subscription for ticker `XYZ`. -/
def subA : Subscription := ⟨1, "XYZ", "a@x.com", 0, true⟩

/-- A sample subscription for ticker `ABC`. -/
def subB : Subscription := ⟨2, "ABC", "b@x.com", 1, true⟩

/-- An idle system with an empty store. -/
def stEmpty : SystemState := ⟨[], [], [], [], false, [], []⟩

/-- An idle system holding two subscriptions. -/
def stTwo : SystemState := { stEmpty with subscriptions := [subA, subB] }

/-- A system with a run already in progress. -/
def stBusy : SystemState := { stEmpty with running := true }

/-- Saturday 10:00. -/
def wkSat : WallClock := ⟨6, 10, 0, 5000⟩

/-- Tuesday 10:00. -/
def wkTue : WallClock := ⟨2, 10, 0, 5000⟩

/-! ## Theorems -/

/-- C3: while any run is in progress (the run-in-progress flag is held),
every trigger — scheduled or manual — is rejected immediately with the
`alreadyRunning` outcome and the state is completely unchanged: no email is
handed to the transport, no log row is written, and nothing is queued, so
at most one run executes at a time. -/
theorem run_rejected_while_running (env : Env) (now : WallClock) (tr : Trigger)
    (st : SystemState) (h : st.running = true) :
    runTrigger env now tr st = (.alreadyRunning, st) := by
  simp [runTrigger, h]

/-- Witness for `run_rejected_while_running` at a concrete busy state. -/
theorem run_rejected_while_running_witness :
    runTrigger envEx wkTue (Trigger.manualAdmin (fun _ => true)) stBusy
      = (.alreadyRunning, stBusy) :=
  run_rejected_while_running envEx wkTue (Trigger.manualAdmin (fun _ => true)) stBusy rfl

/-- C2: a `scheduled` trigger at an instant outside the business window
(not a weekday between 09:00 and 17:00) is a no-op: the outcome is the
batch-level skip, and the state changes only by the batch-level log entry —
in particular the transport outbox and the per-subscription NotificationLog
are untouched. -/
theorem scheduled_skipped_outside_window (env : Env) (now : WallClock)
    (st : SystemState) (h1 : st.running = false)
    (h2 : isWithinBusinessWindow now = false) :
    runTrigger env now .scheduled st
      = (.skippedWindow,
         { st with batchLog := st.batchLog ++ ["skipped: outside business window"] }) := by
  simp [runTrigger, h1, h2]

/-- Witness for `scheduled_skipped_outside_window` on a Saturday. -/
theorem scheduled_skipped_outside_window_witness :
    runTrigger envEx wkSat .scheduled stTwo
      = (.skippedWindow,
         { stTwo with batchLog := stTwo.batchLog ++ ["skipped: outside business window"] }) :=
  scheduled_skipped_outside_window envEx wkSat stTwo rfl rfl

/-- C6: a `manual-single` trigger naming a subscription id that is not in
the store returns the `NotFound` outcome and leaves the state — in
particular the NotificationLog — completely unchanged. -/
theorem manual_single_not_found (env : Env) (now : WallClock) (sid : Nat)
    (st : SystemState) (h1 : st.running = false)
    (h2 : st.subscriptions.find? (fun s => s.id == sid) = none) :
    runTrigger env now (.manualSingle sid) st = (.notFound, st) := by
  simp [runTrigger, h1, h2]

/-- Witness for `manual_single_not_found` at an id absent from the store. -/
theorem manual_single_not_found_witness :
    runTrigger envEx wkTue (.manualSingle 99) stTwo = (.notFound, stTwo) :=
  manual_single_not_found envEx wkTue 99 stTwo rfl (by decide)

/-- C4: starting from a cache with no entry for the ticker, a first
enrichment lookup whose fetch succeeds makes exactly one external call; a
second lookup less than one TTL later makes no further call (one call in
total for the two lookups), while a second lookup after the TTL has
expired makes a second external call. -/
theorem price_cache_ttl (env : Env) (tk : String) (p : Int)
    (cache : List PriceQuote) (t0 t1 : Nat)
    (h0 : priceFind cache tk = none)
    (hs : env.priceService tk = some p) :
    (fetchPrice env cache tk t0).2.2 = 1 ∧
    (t1 - t0 < cacheTTL →
      (fetchPrice env (fetchPrice env cache tk t0).2.1 tk t1).2.2 = 0) ∧
    (cacheTTL < t1 - t0 →
      (fetchPrice env (fetchPrice env cache tk t0).2.1 tk t1).2.2 = 1) := by
  have hfirst : fetchPrice env cache tk t0 = (some p, ⟨tk, p, t0⟩ :: cache, 1) := by
    simp [fetchPrice, h0, hs]
  have hfind : priceFind (⟨tk, p, t0⟩ :: cache) tk = some ⟨tk, p, t0⟩ := by
    simp [priceFind]
  refine ⟨by rw [hfirst], ?_, ?_⟩
  · intro hlt
    have hfr : isFresh t0 t1 = true := by
      simp [isFresh]
      omega
    rw [hfirst]
    simp [fetchPrice, hfind, hfr]
  · intro hgt
    have hfr : isFresh t0 t1 = false := by
      simp [isFresh]
      omega
    rw [hfirst]
    simp [fetchPrice, hfind, hfr, hs]

/-- Witness for `price_cache_ttl`: a cold lookup at time 100 calls the
service once; a second lookup at time 130 is served from the cache. -/
theorem price_cache_ttl_witness :
    (fetchPrice envEx [] "AAPL" 100).2.2 = 1 ∧
    (fetchPrice envEx (fetchPrice envEx [] "AAPL" 100).2.1 "AAPL" 130).2.2 = 0 :=
  ⟨(price_cache_ttl envEx "AAPL" 10 [] 100 130 rfl rfl).1,
   (price_cache_ttl envEx "AAPL" 10 [] 100 130 rfl rfl).2.1 (by decide)⟩

/-- C10: under the stated preconditions (positive page size, at least one
item, current page within the page range), the success path of
`deleteSubscription` decrements `totalCount` by exactly one and keeps
`currentPage` within `[1, max 1 (ceil((totalCount-1)/itemsPerPage))]`, so
the page never points past the last remaining page. -/
theorem delete_subscription_page_in_range (k : Nat) (st : HookState) (id : Nat)
    (hk : 0 < k) (h1 : 1 ≤ st.totalCount) (h2 : 1 ≤ st.currentPage)
    (h3 : st.currentPage ≤ jsCeilDiv st.totalCount k) :
    (deleteSubscriptionSuccess k st id).totalCount + 1 = st.totalCount ∧
    1 ≤ (deleteSubscriptionSuccess k st id).currentPage ∧
    (deleteSubscriptionSuccess k st id).currentPage
      ≤ max 1 (jsCeilDiv (st.totalCount - 1) k) := by
  have hP0 : jsCeilDiv (st.totalCount - 1) k = 0 → st.totalCount = 1 := by
    intro h
    unfold jsCeilDiv at h
    rw [Nat.div_eq_zero_iff hk] at h
    omega
  have hP1 : jsCeilDiv 1 k = 1 := by
    unfold jsCeilDiv
    have hkk : 1 + k - 1 = k := by omega
    rw [hkk, Nat.div_self hk]
  have hmaxr : jsCeilDiv (st.totalCount - 1) k ≤ max 1 (jsCeilDiv (st.totalCount - 1) k) :=
    le_max_right _ _
  have hmaxl : 1 ≤ max 1 (jsCeilDiv (st.totalCount - 1) k) := le_max_left _ _
  simp only [deleteSubscriptionSuccess]
  refine ⟨by omega, ?_, ?_⟩
  · split_ifs with hA hB
    · omega
    · omega
    · omega
  · split_ifs with hA hB
    · omega
    · rcases Decidable.not_and_iff_or_not.mp hA with h | h
      · omega
      · have : st.totalCount = 1 := hP0 (by omega)
        rw [this, hP1] at h3
        omega
    · rcases Decidable.not_and_iff_or_not.mp hA with h | h
      · omega
      · have : st.totalCount = 1 := hP0 (by omega)
        rw [this, hP1] at h3
        omega

/-- Witness for `delete_subscription_page_in_range`: deleting the only item
of page 2 of 2 (7 items, page size 6) moves the page back to 1. -/
theorem delete_subscription_page_in_range_witness :
    (deleteSubscriptionSuccess 6 ⟨[⟨1⟩], 7, 2⟩ 1).totalCount + 1 = 7 ∧
    1 ≤ (deleteSubscriptionSuccess 6 ⟨[⟨1⟩], 7, 2⟩ 1).currentPage ∧
    (deleteSubscriptionSuccess 6 ⟨[⟨1⟩], 7, 2⟩ 1).currentPage
      ≤ max 1 (jsCeilDiv (7 - 1) 6) :=
  delete_subscription_page_in_range 6 ⟨[⟨1⟩], 7, 2⟩ 1 (by decide) (by decide)
    (by decide) (by decide)

/-- Full characterization of the retry loop: at least one and at most
`left + 1` invocations; the result is the outcome of the last invocation;
every earlier invocation failed with a retryable error; and a final error
means the error was not retryable or the retry budget was exhausted. -/
theorem retryLoop_props {E A : Type} (op : Nat → Except E A) (cond : E → Bool) :
    ∀ left attempt : Nat,
      1 ≤ (retryLoop op cond left attempt).2 ∧
      (retryLoop op cond left attempt).2 ≤ left + 1 ∧
      (retryLoop op cond left attempt).1
        = op (attempt + ((retryLoop op cond left attempt).2 - 1)) ∧
      (∀ j, j + 1 < (retryLoop op cond left attempt).2 →
        ∃ e, op (attempt + j) = .error e ∧ cond e = true) ∧
      (∀ e, (retryLoop op cond left attempt).1 = .error e →
        cond e = false ∨ (retryLoop op cond left attempt).2 = left + 1) := by
  intro left
  induction left with
  | zero =>
    intro attempt
    cases hop : op attempt with
    | ok a =>
      refine ⟨?_, ?_, ?_, ?_, ?_⟩ <;> simp [retryLoop, hop]
    | error e =>
      refine ⟨?_, ?_, ?_, ?_, ?_⟩ <;> simp [retryLoop, hop]
  | succ left ih =>
    intro attempt
    cases hop : op attempt with
    | ok a =>
      refine ⟨?_, ?_, ?_, ?_, ?_⟩ <;> simp [retryLoop, hop]
    | error e =>
      cases hc : cond e with
      | false =>
        refine ⟨?_, ?_, ?_, ?_, ?_⟩ <;> simp [retryLoop, hop, hc]
      | true =>
        obtain ⟨ih1, ih2, ih3, ih4, ih5⟩ := ih (attempt + 1)
        have hunf : retryLoop op cond (left + 1) attempt
            = ((retryLoop op cond left (attempt + 1)).1,
               (retryLoop op cond left (attempt + 1)).2 + 1) := by
          simp [retryLoop, hop, hc]
        rw [hunf]
        refine ⟨by omega, by omega, ?_, ?_, ?_⟩
        · have harith : attempt + ((retryLoop op cond left (attempt + 1)).2 + 1 - 1)
              = attempt + 1 + ((retryLoop op cond left (attempt + 1)).2 - 1) := by
            omega
          rw [harith]
          exact ih3
        · intro j hj
          cases j with
          | zero => exact ⟨e, hop, hc⟩
          | succ j' =>
            have harith : attempt + (j' + 1) = attempt + 1 + j' := by omega
            rw [harith]
            exact ih4 j' (by omega)
        · intro e' he'
          rcases ih5 e' he' with h | h
          · exact Or.inl h
          · exact Or.inr (by omega)

/-- C8: `withRetry` under the default retry condition invokes the operation
between 1 and `maxRetries + 1` times (3 with the default `maxRetries = 2`);
the returned value or rethrown error is the outcome of the last invocation
performed (so a success returns immediately and the last error is
rethrown); every invocation before the last failed with an error that the
default condition accepts; a final error means the error was not retryable
or the budget was exhausted; and the default condition accepts exactly the
categories `NETWORK_ERROR`, `TIMEOUT` and `SERVER_ERROR`. -/
theorem withRetry_default_spec {A : Type} (op : Nat → Except ErrJS A)
    (maxRetries : Nat) (online : Bool) :
    1 ≤ (withRetryCount op maxRetries (defaultRetryCondition online)).2 ∧
    (withRetryCount op maxRetries (defaultRetryCondition online)).2 ≤ maxRetries + 1 ∧
    (withRetryCount op maxRetries (defaultRetryCondition online)).1
      = op ((withRetryCount op maxRetries (defaultRetryCondition online)).2 - 1) ∧
    (∀ j, j + 1 < (withRetryCount op maxRetries (defaultRetryCondition online)).2 →
      ∃ e, op j = .error e ∧ defaultRetryCondition online e = true) ∧
    (∀ e, (withRetryCount op maxRetries (defaultRetryCondition online)).1 = .error e →
      defaultRetryCondition online e = false ∨
      (withRetryCount op maxRetries (defaultRetryCondition online)).2 = maxRetries + 1) ∧
    (∀ e, defaultRetryCondition online e = true ↔
      (categorizeError online e = .networkError ∨ categorizeError online e = .timeoutE ∨
       categorizeError online e = .serverError)) := by
  obtain ⟨h1, h2, h3, h4, h5⟩ := retryLoop_props op (defaultRetryCondition online) maxRetries 0
  refine ⟨h1, h2, by simpa using h3, by simpa using h4, h5, ?_⟩
  intro e
  unfold defaultRetryCondition
  cases categorizeError online e <;> simp

/-- Dropping from an already-dropped list changes nothing. -/
theorem dropWhile_dropWhile (p : Char → Bool) :
    ∀ l : List Char, (l.dropWhile p).dropWhile p = l.dropWhile p := by
  intro l
  induction l with
  | nil => rfl
  | cons c t ih =>
    by_cases h : p c
    · simp [List.dropWhile_cons, h, ih]
    · simp [List.dropWhile_cons, h]

/-- A list whose head does not satisfy `p` is unchanged by `dropWhile p`. -/
theorem dropWhile_of_head_not (p : Char → Bool) (l : List Char)
    (h : ∀ c, l.head? = some c → p c = false) : l.dropWhile p = l := by
  cases l with
  | nil => rfl
  | cons c t => simp [List.dropWhile_cons, h c rfl]

/-- The head surviving `dropWhile p` does not satisfy `p`. -/
theorem head_dropWhile_not (p : Char → Bool) :
    ∀ l : List Char, ∀ c, (l.dropWhile p).head? = some c → p c = false := by
  intro l
  induction l with
  | nil => intro c h; simp at h
  | cons c' t ih =>
    intro c h
    by_cases hp : p c'
    · rw [List.dropWhile_cons] at h
      simp only [hp, if_true] at h
      exact ih c h
    · rw [List.dropWhile_cons] at h
      simp only [hp, if_false, Bool.false_eq_true, List.head?_cons, Option.some.injEq] at h
      rw [← h]
      simpa using hp

/-- `dropWhile` only removes a front segment, so a nonempty result keeps
the last element. -/
theorem getLast_dropWhile (p : Char → Bool) :
    ∀ l : List Char, l.dropWhile p ≠ [] →
      (l.dropWhile p).getLast? = l.getLast? := by
  intro l
  induction l with
  | nil => intro h; simp at h
  | cons c t ih =>
    intro h
    by_cases hp : p c
    · have h' : t.dropWhile p ≠ [] := by
        rw [List.dropWhile_cons] at h
        simpa only [hp, if_true] using h
      rw [List.dropWhile_cons]
      simp only [hp, if_true]
      cases t with
      | nil => simp at h'
      | cons a t' =>
        rw [List.getLast?_cons_cons]
        exact ih h'
    · rw [List.dropWhile_cons]
      simp only [hp, if_false, Bool.false_eq_true]

/-- JavaScript `trim` is idempotent. -/
theorem jsTrim_idem (l : List Char) : jsTrim (jsTrim l) = jsTrim l := by
  by_cases hb : (l.dropWhile isJsWs).reverse.dropWhile isJsWs = []
  · have hnil : jsTrim l = [] := by
      show ((l.dropWhile isJsWs).reverse.dropWhile isJsWs).reverse = []
      rw [hb]
      rfl
    rw [hnil]
    rfl
  · have hstep1 : (jsTrim l).dropWhile isJsWs = jsTrim l := by
      apply dropWhile_of_head_not
      intro c hc
      have h1 : (jsTrim l).head?
          = ((l.dropWhile isJsWs).reverse.dropWhile isJsWs).getLast? := by
        show (((l.dropWhile isJsWs).reverse.dropWhile isJsWs).reverse).head? = _
        rw [← List.getLast?_eq_head?_reverse]
      have h2 : ((l.dropWhile isJsWs).reverse.dropWhile isJsWs).getLast?
          = ((l.dropWhile isJsWs).reverse).getLast? :=
        getLast_dropWhile isJsWs _ hb
      have h3 : ((l.dropWhile isJsWs).reverse).getLast? = (l.dropWhile isJsWs).head? := by
        rw [List.getLast?_eq_head?_reverse, List.reverse_reverse]
      rw [h1, h2, h3] at hc
      exact head_dropWhile_not isJsWs l c hc
    calc jsTrim (jsTrim l)
        = (((jsTrim l).dropWhile isJsWs).reverse.dropWhile isJsWs).reverse := rfl
      _ = ((jsTrim l).reverse.dropWhile isJsWs).reverse := by rw [hstep1]
      _ = ((((l.dropWhile isJsWs).reverse.dropWhile isJsWs).reverse.reverse).dropWhile
            isJsWs).reverse := rfl
      _ = (((l.dropWhile isJsWs).reverse.dropWhile isJsWs).dropWhile isJsWs).reverse := by
            rw [List.reverse_reverse]
      _ = ((l.dropWhile isJsWs).reverse.dropWhile isJsWs).reverse := by
            rw [dropWhile_dropWhile]
      _ = jsTrim l := rfl

/-- C9 counterexample: `sanitizeInput` is not idempotent — stripping
`javascript:` from `jajavascript:vascript:` leaves `javascript:`, which a
second application removes entirely. -/
theorem sanitizeInput_not_idempotent :
    sanitizeInput (sanitizeInput (JSValue.str "jajavascript:vascript:"))
      ≠ sanitizeInput (JSValue.str "jajavascript:vascript:") := by decide

/-- C9 amended: `sanitizeInput` returns every non-string value unchanged,
and it is idempotent at a string whenever the replacement passes leave its
sanitized form unchanged (in particular on strings free of the stripped
patterns); full idempotence fails, see `sanitizeInput_not_idempotent`. -/
theorem sanitizeInput_amended :
    (∀ v : JSValue, (∀ s, v ≠ JSValue.str s) → sanitizeInput v = v) ∧
    (∀ s : String, stripAll (sanitizeString s).data = (sanitizeString s).data →
      sanitizeInput (sanitizeInput (JSValue.str s)) = sanitizeInput (JSValue.str s)) := by
  constructor
  · intro v hv
    cases v with
    | str s => exact absurd rfl (hv s)
    | num n => rfl
    | boolv b => rfl
    | nullv => rfl
    | undef => rfl
  · intro s h
    have hdata : (sanitizeString s).data = jsTrim (stripAll s.data) := rfl
    have hcore : sanitizeString (sanitizeString s) = sanitizeString s := by
      calc sanitizeString (sanitizeString s)
          = String.mk (jsTrim (stripAll (sanitizeString s).data)) := rfl
        _ = String.mk (jsTrim ((sanitizeString s).data)) := by rw [h]
        _ = String.mk (jsTrim (jsTrim (stripAll s.data))) := by rw [hdata]
        _ = String.mk (jsTrim (stripAll s.data)) := by rw [jsTrim_idem]
        _ = sanitizeString s := rfl
    show JSValue.str (sanitizeString (sanitizeString s)) = JSValue.str (sanitizeString s)
    rw [hcore]

/-- Witness for `sanitizeInput_amended`: a number is unchanged, and a
pattern-free string is a fixed point of a second application. -/
theorem sanitizeInput_amended_witness :
    sanitizeInput (JSValue.num 3) = JSValue.num 3 ∧
    sanitizeInput (sanitizeInput (JSValue.str "hello")) = sanitizeInput (JSValue.str "hello") :=
  ⟨sanitizeInput_amended.1 (JSValue.num 3) (fun s => by simp),
   sanitizeInput_amended.2 "hello" (by decide)⟩

/-- Membership in `firstOccur` is membership in the original list. -/
theorem mem_firstOccur (x : String) : ∀ l : List String, x ∈ firstOccur l ↔ x ∈ l := by
  intro l
  induction l with
  | nil => simp [firstOccur]
  | cons e rest ih =>
    by_cases hx : x = e
    · simp [firstOccur, hx]
    · simp [firstOccur, List.mem_filter, ih, hx]

/-- `firstOccur` has no duplicates. -/
theorem nodup_firstOccur : ∀ l : List String, (firstOccur l).Nodup := by
  intro l
  induction l with
  | nil => simp [firstOccur]
  | cons e rest ih =>
    rw [firstOccur, List.nodup_cons]
    exact ⟨by simp [List.mem_filter], List.Nodup.filter _ ih⟩

/-- `firstOccur` counts exactly the distinct elements. -/
theorem length_firstOccur (l : List String) : (firstOccur l).length = l.dedup.length := by
  have h1 : (firstOccur l).toFinset = l.dedup.toFinset := by
    ext x
    simp [List.mem_toFinset, mem_firstOccur, List.mem_dedup]
  have h2 := List.toFinset_card_of_nodup (nodup_firstOccur l)
  have h3 := List.toFinset_card_of_nodup (List.nodup_dedup l)
  rw [← h2, ← h3, h1]

/-- Sum of a constant-zero map. -/
theorem sum_map_zero (K : List String) : (K.map (fun _ => (0 : Nat))).sum = 0 := by
  induction K <;> simp [*]

/-- Pointwise sums split. -/
theorem sum_map_add (K : List String) (f g : String → Nat) :
    (K.map (fun e => f e + g e)).sum = (K.map f).sum + (K.map g).sum := by
  induction K with
  | nil => simp
  | cons e t ih =>
    simp only [List.map_cons, List.sum_cons, ih]
    omega

/-- An absent element has indicator sum zero. -/
theorem sum_indicator_not_mem (a : String) :
    ∀ K : List String, a ∉ K →
      (K.map (fun e => if a = e then (1 : Nat) else 0)).sum = 0 := by
  intro K
  induction K with
  | nil => simp
  | cons e t ih =>
    intro h
    have h1 : a ≠ e := fun he => h (he ▸ List.mem_cons_self e t)
    have h2 : a ∉ t := fun ht => h (List.mem_cons_of_mem e ht)
    simp [h1, ih h2]

/-- On a duplicate-free list, an element present has indicator sum one. -/
theorem sum_indicator (a : String) :
    ∀ K : List String, K.Nodup → a ∈ K →
      (K.map (fun e => if a = e then (1 : Nat) else 0)).sum = 1 := by
  intro K
  induction K with
  | nil => intro _ h; simp at h
  | cons e t ih =>
    intro hnd hmem
    rw [List.nodup_cons] at hnd
    by_cases hae : a = e
    · subst hae
      have hat : a ∉ t := hnd.1
      simp [sum_indicator_not_mem a t hat]
    · have hat : a ∈ t := by
        rcases List.mem_cons.mp hmem with h | h
        · exact absurd h hae
        · exact h
      simp [hae, ih hnd.2 hat]

/-- Filtering a list by each key of a duplicate-free cover partitions it:
the filtered lengths sum to the total length. -/
theorem sum_counts (K : List String) (hK : K.Nodup) :
    ∀ subs : List Subscription, (∀ s ∈ subs, s.recipientEmail ∈ K) →
      (K.map (fun e => (subs.filter (fun s => s.recipientEmail == e)).length)).sum
        = subs.length := by
  intro subs
  induction subs with
  | nil =>
    intro _
    simp only [List.filter_nil, List.length_nil]
    exact sum_map_zero K
  | cons s rest ih =>
    intro hcov
    have hcovrest : ∀ x ∈ rest, x.recipientEmail ∈ K :=
      fun x hx => hcov x (List.mem_cons_of_mem _ hx)
    have hsmem : s.recipientEmail ∈ K := hcov s (List.mem_cons_self _ _)
    have hpt : ∀ e ∈ K, ((s :: rest).filter (fun x => x.recipientEmail == e)).length
        = (if s.recipientEmail = e then 1 else 0)
          + (rest.filter (fun x => x.recipientEmail == e)).length := by
      intro e _
      rw [List.filter_cons]
      by_cases h : s.recipientEmail = e
      · simp [h]
        omega
      · simp [h]
    calc (K.map fun e => ((s :: rest).filter (fun x => x.recipientEmail == e)).length).sum
        = (K.map fun e => (if s.recipientEmail = e then (1 : Nat) else 0)
            + (rest.filter (fun x => x.recipientEmail == e)).length).sum := by
          rw [List.map_congr_left hpt]
      _ = (K.map fun e => if s.recipientEmail = e then (1 : Nat) else 0).sum
          + (K.map fun e => (rest.filter (fun x => x.recipientEmail == e)).length).sum :=
          sum_map_add K _ _
      _ = 1 + rest.length := by rw [sum_indicator _ K hK hsmem, ih hcovrest]
      _ = (s :: rest).length := by simp [List.length_cons]; omega

/-- The group sizes of `groupByRecipient` sum to the number of selected
subscriptions. -/
theorem groupByRecipient_sizes (subs : List Subscription) :
    ((groupByRecipient subs).map (fun g => g.2.length)).sum = subs.length := by
  unfold groupByRecipient
  rw [List.map_map]
  exact sum_counts (firstOccur (subs.map (·.recipientEmail))) (nodup_firstOccur _) subs
    (fun s hs => (mem_firstOccur _ _).mpr (List.mem_map_of_mem _ hs))

/-- One transport submission per distinct recipient. -/
theorem executeBatch_outbox_len (env : Env) (now : WallClock) (ch : Channel)
    (selected : List Subscription) (st : SystemState) :
    (executeBatch env now ch selected st).2.outbox.length
      = st.outbox.length + ((selected.map Subscription.recipientEmail).dedup).length := by
  simp only [executeBatch]
  rw [List.length_append]
  congr 1
  rw [List.length_map, List.length_map]
  unfold groupByRecipient
  rw [List.length_map, length_firstOccur]

/-- One appended log row per selected subscription. -/
theorem executeBatch_logs_len (env : Env) (now : WallClock) (ch : Channel)
    (selected : List Subscription) (st : SystemState) :
    (executeBatch env now ch selected st).2.logs.length
      = st.logs.length + selected.length := by
  simp only [executeBatch]
  rw [List.length_append]
  congr 1
  rw [List.length_flatten, List.map_map, List.map_map]
  calc ((groupByRecipient selected).map _).sum
      = ((groupByRecipient selected).map (fun g => g.2.length)).sum := by
        apply congrArg
        apply List.map_congr_left
        intro g _
        simp [groupLogs]
    _ = selected.length := groupByRecipient_sizes selected

/-- C1: a notification run over `N` selected subscriptions spanning `M`
distinct recipient emails hands exactly `M` emails to the transport (one
merged email per distinct recipient, even when a recipient has several
subscriptions) and appends exactly `N` NotificationLog rows (one per
subscription included in the run). -/
theorem notification_run_counts (env : Env) (now : WallClock) (ch : Channel)
    (selected : List Subscription) (st : SystemState) :
    (executeBatch env now ch selected st).2.outbox.length
      = st.outbox.length + ((selected.map Subscription.recipientEmail).dedup).length ∧
    (executeBatch env now ch selected st).2.logs.length
      = st.logs.length + selected.length :=
  ⟨executeBatch_outbox_len env now ch selected st,
   executeBatch_logs_len env now ch selected st⟩

/-- Sent rows in a group: the whole group if its send succeeded, none
otherwise. -/
theorem countP_groupLogs_sent (ch : Channel) (ok : Bool) (g : String × List Subscription) :
    (groupLogs ch ok g).countP (fun L => L.status == LogStatus.sent)
      = if ok then g.2.length else 0 := by
  cases ok <;> simp [groupLogs, List.countP_map, Function.comp_def]

/-- Failed rows in a group: the whole group if its send failed, none
otherwise. -/
theorem countP_groupLogs_failed (ch : Channel) (ok : Bool) (g : String × List Subscription) :
    (groupLogs ch ok g).countP (fun L => L.status == LogStatus.failed)
      = if ok then 0 else g.2.length := by
  cases ok <;> simp [groupLogs, List.countP_map, Function.comp_def]

/-- The summary a batch run returns is an accurate account of the run: each
field equals the corresponding count over the emails actually handed to
the transport, the log rows actually appended, and the enrichment results
of the run. -/
theorem executeBatch_summary_counts (env : Env) (now : WallClock) (ch : Channel)
    (selected : List Subscription) (st : SystemState) :
    ∀ s st', executeBatch env now ch selected st = (.completed s, st') →
      s.emailsSent = (st'.outbox.drop st.outbox.length).countP (fun r => r.ok) ∧
      s.subsSent = (st'.logs.drop st.logs.length).countP
        (fun L => L.status == LogStatus.sent) ∧
      s.subsFailed = (st'.logs.drop st.logs.length).countP
        (fun L => L.status == LogStatus.failed) ∧
      s.tickersUnavailable
        = ((enrichAll env now.absMinutes ⟨st.priceCache, st.recCache⟩
            (firstOccur (selected.map Subscription.ticker))).1.filter
            (fun i => i.quote.isNone)).length := by
  intro s st' h
  simp only [executeBatch, Prod.mk.injEq, RunOutcome.completed.injEq] at h
  obtain ⟨hs, hst⟩ := h
  subst hs
  subst hst
  refine ⟨?_, ?_, ?_, rfl⟩
  · simp only [List.drop_left]
    rw [← List.countP_eq_length_filter]
    simp only [List.countP_map, Function.comp_def]
  · simp only [List.drop_left, List.countP_flatten, List.map_map]
    apply congrArg
    apply List.map_congr_left
    intro g _
    simp only [Function.comp_def]
    rw [countP_groupLogs_sent]
    cases hok : (groupSend env
        (enrichAll env now.absMinutes ⟨st.priceCache, st.recCache⟩
          (firstOccur (selected.map Subscription.ticker))).1 g).ok <;>
      simp [groupLogs, hok]
  · simp only [List.drop_left, List.countP_flatten, List.map_map]
    apply congrArg
    apply List.map_congr_left
    intro g _
    simp only [Function.comp_def]
    rw [countP_groupLogs_failed]
    cases hok : (groupSend env
        (enrichAll env now.absMinutes ⟨st.priceCache, st.recCache⟩
          (firstOccur (selected.map Subscription.ticker))).1 g).ok <;>
      simp [groupLogs, hok]

/-- C7: every completed manual run returns to the caller a summary whose
fields are the counts of emails sent (successful transport submissions of
the run), subscriptions logged as sent, subscriptions logged as failed,
and tickers with unavailable price; full success is distinguished as the
absence of failed rows and unavailable tickers. -/
theorem manual_run_summary (env : Env) (now : WallClock) (tr : Trigger)
    (st : SystemState) (s : RunSummary) (st' : SystemState)
    (hm : isManual tr = true)
    (h : runTrigger env now tr st = (.completed s, st')) :
    s.emailsSent = (st'.outbox.drop st.outbox.length).countP (fun r => r.ok) ∧
    s.subsSent = (st'.logs.drop st.logs.length).countP
      (fun L => L.status == LogStatus.sent) ∧
    s.subsFailed = (st'.logs.drop st.logs.length).countP
      (fun L => L.status == LogStatus.failed) ∧
    s.tickersUnavailable
      = ((enrichAll env now.absMinutes ⟨st.priceCache, st.recCache⟩
          (firstOccur ((selectedOf tr st).map Subscription.ticker))).1.filter
          (fun i => i.quote.isNone)).length ∧
    (isFullSuccess s = true ↔ (s.subsFailed = 0 ∧ s.tickersUnavailable = 0)) := by
  have hexec : executeBatch env now .manual (selectedOf tr st) st = (.completed s, st') := by
    cases tr with
    | scheduled => simp [isManual] at hm
    | manualSingle sid =>
      simp only [runTrigger] at h
      by_cases hr : st.running
      · simp [hr] at h
      · simp only [hr, if_false, Bool.false_eq_true] at h
        cases hfind : st.subscriptions.find? (fun x => x.id == sid) with
        | none => rw [hfind] at h; simp at h
        | some sub =>
          rw [hfind] at h
          have hsel : selectedOf (.manualSingle sid) st = [sub] := by
            simp [selectedOf, hfind]
          rw [hsel]
          exact h
    | manualAdmin f =>
      simp only [runTrigger] at h
      by_cases hr : st.running
      · simp [hr] at h
      · simpa only [hr, if_false, Bool.false_eq_true] using h
  obtain ⟨c1, c2, c3, c4⟩ :=
    executeBatch_summary_counts env now .manual (selectedOf tr st) st s st' hexec
  exact ⟨c1, c2, c3, c4, by simp [isFullSuccess]⟩

/-- Witness for `manual_run_summary`: a manual-admin run over an empty
store completes with the all-zero summary. -/
theorem manual_run_summary_witness :
    (RunSummary.mk 0 0 0 0).emailsSent
      = (((SystemState.mk [] [] ["completed"] [] false [] []).outbox).drop
          stEmpty.outbox.length).countP (fun r => r.ok) :=
  (manual_run_summary envEx wkTue (.manualAdmin (fun _ => true)) stEmpty
    (RunSummary.mk 0 0 0 0) (SystemState.mk [] [] ["completed"] [] false [] [])
    rfl rfl).1

/-- Unfolding the price cache lookup over a cons. -/
theorem priceFind_cons (q : PriceQuote) (c : List PriceQuote) (tk : String) :
    priceFind (q :: c) tk = if q.ticker == tk then some q else priceFind c tk := by
  by_cases h : (q.ticker == tk) = true
  · simp [priceFind, h]
  · simp only [Bool.not_eq_true] at h
    simp [priceFind, h]

/-- Unfolding the recommendation cache lookup over a cons. -/
theorem recFind_cons (e : RecEntry) (c : List RecEntry) (tk : String) (b : Int) :
    recFind (e :: c) tk b
      = if e.ticker == tk && e.priceBucket == b then some e else recFind c tk b := by
  by_cases h : (e.ticker == tk && e.priceBucket == b) = true
  · simp [recFind, h]
  · simp only [Bool.not_eq_true] at h
    simp [recFind, h]

/-- A price fetch touches no cache key other than its own ticker. -/
theorem fetchPrice_local (env : Env) (pc : List PriceQuote) (tk : String)
    (now : Nat) (tk'' : String) (h : tk'' ≠ tk) :
    priceFind (fetchPrice env pc tk now).2.1 tk'' = priceFind pc tk'' := by
  have hbe : (tk == tk'') = false := beq_eq_false_iff_ne.mpr (Ne.symm h)
  unfold fetchPrice
  cases hfp : priceFind pc tk with
  | none =>
    cases hsvc : env.priceService tk with
    | none => simp
    | some p => simp [priceFind_cons, hbe]
  | some q =>
    cases hfr : isFresh q.fetchedAt now with
    | true => simp [hfr]
    | false =>
      cases hsvc : env.priceService tk with
      | none => simp [hfr, hsvc]
      | some p => simp [hfr, hsvc, priceFind_cons, hbe]

/-- A recommendation fetch touches no cache key other than its own ticker. -/
theorem fetchRec_local (env : Env) (rc : List RecEntry) (tk : String) (p : Int)
    (now : Nat) (tk'' : String) (b : Int) (h : tk'' ≠ tk) :
    recFind (fetchRec env rc tk p now).2 tk'' b = recFind rc tk'' b := by
  have hbe : (tk == tk'') = false := beq_eq_false_iff_ne.mpr (Ne.symm h)
  unfold fetchRec
  cases hfp : recFind rc tk (roundPrice p) with
  | none =>
    cases hsvc : env.aiService tk p with
    | none => simp
    | some txt => simp [recFind_cons, hbe]
  | some e =>
    cases hfr : isFresh e.fetchedAt now with
    | true => simp [hfr]
    | false =>
      cases hsvc : env.aiService tk p with
      | none => simp [hfr, hsvc]
      | some txt => simp [hfr, hsvc, recFind_cons, hbe]

/-- Two price fetches for the same ticker from caches that agree on that
ticker, in environments that agree on that ticker, return the same quote
and leave caches that still agree on that ticker. -/
theorem fetchPrice_congr (envF envO : Env) (pF pO : List PriceQuote)
    (tk : String) (now : Nat)
    (hps : envO.priceService tk = envF.priceService tk)
    (h1 : priceFind pF tk = priceFind pO tk) :
    (fetchPrice envF pF tk now).1 = (fetchPrice envO pO tk now).1 ∧
    priceFind (fetchPrice envF pF tk now).2.1 tk
      = priceFind (fetchPrice envO pO tk now).2.1 tk := by
  unfold fetchPrice
  rw [← h1, hps]
  cases hfp : priceFind pF tk with
  | none =>
    cases hsvc : envF.priceService tk with
    | none => constructor <;> simp [h1]
    | some p => constructor <;> simp [priceFind_cons]
  | some q =>
    cases hfr : isFresh q.fetchedAt now with
    | true => constructor <;> simp [hfr, h1]
    | false =>
      cases hsvc : envF.priceService tk with
      | none => constructor <;> simp [hfr, hsvc, h1]
      | some p => constructor <;> simp [hfr, hsvc, priceFind_cons]

/-- Two recommendation fetches for the same ticker and price from caches
that agree on that ticker, with the same AI service, return the same text
and leave caches that still agree on that ticker. -/
theorem fetchRec_congr (envF envO : Env) (rcF rcO : List RecEntry)
    (tk : String) (p : Int) (now : Nat)
    (hai : envO.aiService = envF.aiService)
    (h2 : ∀ b, recFind rcF tk b = recFind rcO tk b) :
    (fetchRec envF rcF tk p now).1 = (fetchRec envO rcO tk p now).1 ∧
    ∀ b, recFind (fetchRec envF rcF tk p now).2 tk b
      = recFind (fetchRec envO rcO tk p now).2 tk b := by
  unfold fetchRec
  rw [← h2 (roundPrice p), hai]
  cases hfp : recFind rcF tk (roundPrice p) with
  | none =>
    cases hsvc : envF.aiService tk p with
    | none => refine ⟨by simp, ?_⟩; intro b; simp [h2 b]
    | some txt =>
      refine ⟨by simp, ?_⟩
      intro b
      show recFind (RecEntry.mk tk (roundPrice p) txt now :: rcF) tk b
        = recFind (RecEntry.mk tk (roundPrice p) txt now :: rcO) tk b
      rw [recFind_cons, recFind_cons]
      split
      · rfl
      · exact h2 b
  | some e =>
    cases hfr : isFresh e.fetchedAt now with
    | true => refine ⟨by simp [hfr], ?_⟩; intro b; simp [hfr, h2 b]
    | false =>
      cases hsvc : envF.aiService tk p with
      | none => refine ⟨by simp [hfr, hsvc], ?_⟩; intro b; simp [hfr, hsvc, h2 b]
      | some txt =>
        refine ⟨by simp [hfr], ?_⟩
        intro b
        simp only [hfr, Bool.false_eq_true, if_false]
        rw [recFind_cons, recFind_cons]
        split
        · rfl
        · exact h2 b

/-- The enrichment entry of a ticker carries that ticker. -/
theorem enrichTicker_info_ticker (env : Env) (now : Nat) (cs : Caches) (tk : String) :
    (enrichTicker env now cs tk).1.ticker = tk := by
  rcases hq : fetchPrice env cs.price tk now with ⟨q, pc, n⟩
  rcases q with _ | p
  · unfold enrichTicker
    simp [hq]
  · rcases hr : fetchRec env cs.recs tk p now with ⟨r, rc⟩
    unfold enrichTicker
    simp [hq, hr]

/-- Enriching one ticker touches no price-cache key other than its own. -/
theorem enrichTicker_price_local (env : Env) (now : Nat) (cs : Caches)
    (tk tk'' : String) (h : tk'' ≠ tk) :
    priceFind (enrichTicker env now cs tk).2.1.price tk'' = priceFind cs.price tk'' := by
  have hl := fetchPrice_local env cs.price tk now tk'' h
  rcases hq : fetchPrice env cs.price tk now with ⟨q, pc, n⟩
  rw [hq] at hl
  rcases q with _ | p
  · unfold enrichTicker
    simp only [hq]
    exact hl
  · rcases hr : fetchRec env cs.recs tk p now with ⟨r, rc⟩
    unfold enrichTicker
    simp only [hq, hr]
    exact hl

/-- Enriching one ticker touches no recommendation-cache key for another
ticker. -/
theorem enrichTicker_rec_local (env : Env) (now : Nat) (cs : Caches)
    (tk tk'' : String) (b : Int) (h : tk'' ≠ tk) :
    recFind (enrichTicker env now cs tk).2.1.recs tk'' b = recFind cs.recs tk'' b := by
  rcases hq : fetchPrice env cs.price tk now with ⟨q, pc, n⟩
  rcases q with _ | p
  · unfold enrichTicker
    simp only [hq]
  · have hl := fetchRec_local env cs.recs tk p now tk'' b h
    rcases hr : fetchRec env cs.recs tk p now with ⟨r, rc⟩
    rw [hr] at hl
    unfold enrichTicker
    simp only [hq, hr]
    exact hl

/-- Away from the failing ticker, enrichment of one ticker behaves the same
in the two environments and preserves cache agreement. -/
theorem enrichTicker_congr (envF envO : Env) (now : Nat) (cF cO : Caches)
    (tk T : String) (htk : tk ≠ T)
    (hps : envO.priceService tk = envF.priceService tk)
    (hai : envO.aiService = envF.aiService)
    (hA1 : ∀ tk', tk' ≠ T → priceFind cF.price tk' = priceFind cO.price tk')
    (hA2 : ∀ tk' b, tk' ≠ T → recFind cF.recs tk' b = recFind cO.recs tk' b) :
    (enrichTicker envF now cF tk).1 = (enrichTicker envO now cO tk).1 ∧
    (∀ tk', tk' ≠ T →
      priceFind (enrichTicker envF now cF tk).2.1.price tk'
        = priceFind (enrichTicker envO now cO tk).2.1.price tk') ∧
    (∀ tk' b, tk' ≠ T →
      recFind (enrichTicker envF now cF tk).2.1.recs tk' b
        = recFind (enrichTicker envO now cO tk).2.1.recs tk' b) := by
  obtain ⟨hq0, hpc0⟩ := fetchPrice_congr envF envO cF.price cO.price tk now hps (hA1 tk htk)
  rcases hqF : fetchPrice envF cF.price tk now with ⟨qF, pcF, nF⟩
  rcases hqO : fetchPrice envO cO.price tk now with ⟨qO, pcO, nO⟩
  rw [hqF, hqO] at hq0 hpc0
  have hq1 : qF = qO := hq0
  have hpc1 : priceFind pcF tk = priceFind pcO tk := hpc0
  subst hq1
  have hpricekey : ∀ tk', tk' ≠ T → priceFind pcF tk' = priceFind pcO tk' := by
    intro tk' h'
    by_cases he : tk' = tk
    · subst he
      exact hpc1
    · have l1 := fetchPrice_local envF cF.price tk now tk' he
      have l2 := fetchPrice_local envO cO.price tk now tk' he
      rw [hqF] at l1
      rw [hqO] at l2
      exact l1.trans ((hA1 tk' h').trans l2.symm)
  rcases qF with _ | p
  · refine ⟨?_, ?_, ?_⟩
    · unfold enrichTicker
      simp [hqF, hqO]
    · intro tk' h'
      unfold enrichTicker
      simp only [hqF, hqO]
      exact hpricekey tk' h'
    · intro tk' b h'
      unfold enrichTicker
      simp only [hqF, hqO]
      exact hA2 tk' b h'
  · obtain ⟨hr0, hrc0⟩ := fetchRec_congr envF envO cF.recs cO.recs tk p now hai
      (fun b => hA2 tk b htk)
    rcases hrF : fetchRec envF cF.recs tk p now with ⟨rF, rcF2⟩
    rcases hrO : fetchRec envO cO.recs tk p now with ⟨rO, rcO2⟩
    rw [hrF, hrO] at hr0 hrc0
    have hr1 : rF = rO := hr0
    have hrc1 : ∀ b, recFind rcF2 tk b = recFind rcO2 tk b := hrc0
    subst hr1
    refine ⟨?_, ?_, ?_⟩
    · unfold enrichTicker
      simp [hqF, hqO, hrF, hrO]
    · intro tk' h'
      unfold enrichTicker
      simp only [hqF, hqO, hrF, hrO]
      exact hpricekey tk' h'
    · intro tk' b h'
      unfold enrichTicker
      simp only [hqF, hqO, hrF, hrO]
      by_cases he : tk' = tk
      · subst he
        exact hrc1 b
      · have l1 := fetchRec_local envF cF.recs tk p now tk' b he
        have l2 := fetchRec_local envO cO.recs tk p now tk' b he
        rw [hrF] at l1
        rw [hrO] at l2
        exact l1.trans ((hA2 tk' b h').trans l2.symm)

/-- Enriching the failing ticker in the failing run yields the unavailable
entry and leaves the caches unchanged. -/
theorem enrichTicker_fail (envF : Env) (now : Nat) (cF : Caches) (T : String)
    (hF : envF.priceService T = none)
    (hT : priceFind cF.price T = none) :
    enrichTicker envF now cF T = (⟨T, none, none⟩, cF, 1) := by
  unfold enrichTicker fetchPrice
  rw [hT, hF]

/-- Enrichment of a whole run in the failing environment, compared with the
environment whose only difference is at the failing ticker `T`: the info
lists agree position by position away from `T`, and every entry of the
failing run for `T` is the unavailable entry. -/
theorem enrichAll_fail_ok (envF envO : Env) (T : String)
    (hF : envF.priceService T = none)
    (hOff : ∀ tk, tk ≠ T → envO.priceService tk = envF.priceService tk)
    (hai : envO.aiService = envF.aiService) (now : Nat) :
    ∀ (tks : List String) (cF cO : Caches),
      cachesAgreeOff T cF cO →
      priceFind cF.price T = none →
      List.Forall₂ (infoAgreeOff T)
        (enrichAll envF now cF tks).1 (enrichAll envO now cO tks).1 ∧
      (∀ i ∈ (enrichAll envF now cF tks).1, i.ticker = T → i = ⟨T, none, none⟩) := by
  intro tks
  induction tks with
  | nil =>
    intro cF cO _ _
    refine ⟨?_, ?_⟩
    · unfold enrichAll
      exact List.Forall₂.nil
    · intro i hi
      unfold enrichAll at hi
      simp at hi
  | cons tk rest ih =>
    intro cF cO hAg hT
    by_cases htk : tk = T
    · subst htk
      have hFstep := enrichTicker_fail envF now cF tk hF hT
      rcases hOstep : enrichTicker envO now cO tk with ⟨infoO, cO', nO⟩
      have hOtick : infoO.ticker = tk := by
        have h := enrichTicker_info_ticker envO now cO tk
        rw [hOstep] at h
        exact h
      have hAg' : cachesAgreeOff tk cF cO' := by
        constructor
        · intro tk' h'
          have l2 := enrichTicker_price_local envO now cO tk tk' h'
          rw [hOstep] at l2
          exact (hAg.1 tk' h').trans l2.symm
        · intro tk' b h'
          have l2 := enrichTicker_rec_local envO now cO tk tk' b h'
          rw [hOstep] at l2
          exact (hAg.2 tk' b h').trans l2.symm
      obtain ⟨ihrel, ihent⟩ := ih cF cO' hAg' hT
      rcases hFrest : enrichAll envF now cF rest with ⟨infosF, csF2, mF⟩
      rcases hOrest : enrichAll envO now cO' rest with ⟨infosO, csO2, mO⟩
      have hFall : (enrichAll envF now cF (tk :: rest)).1
          = (⟨tk, none, none⟩ : TickerInfo) :: infosF := by
        unfold enrichAll
        simp [hFstep, hFrest]
      have hOall : (enrichAll envO now cO (tk :: rest)).1 = infoO :: infosO := by
        unfold enrichAll
        simp [hOstep, hOrest]
      rw [hFrest, hOrest] at ihrel
      rw [hFrest] at ihent
      rw [hFall, hOall]
      refine ⟨List.Forall₂.cons ⟨hOtick.symm, fun hc => absurd rfl hc⟩ ihrel, ?_⟩
      intro i hi ht
      rcases List.mem_cons.mp hi with h | h
      · exact h
      · exact ihent i h ht
    · obtain ⟨hinfo, hp, hr⟩ := enrichTicker_congr envF envO now cF cO tk T htk
        (hOff tk htk) hai hAg.1 hAg.2
      rcases hFstep : enrichTicker envF now cF tk with ⟨infoF, cF', nF⟩
      rcases hOstep : enrichTicker envO now cO tk with ⟨infoO, cO', nO⟩
      rw [hFstep, hOstep] at hinfo hp hr
      have hinfo' : infoF = infoO := hinfo
      have hFtick : infoF.ticker = tk := by
        have h := enrichTicker_info_ticker envF now cF tk
        rw [hFstep] at h
        exact h
      have hAg' : cachesAgreeOff T cF' cO' := ⟨fun tk' h' => hp tk' h', fun tk' b h' => hr tk' b h'⟩
      have hT' : priceFind cF'.price T = none := by
        have l1 := enrichTicker_price_local envF now cF tk T (Ne.symm htk)
        rw [hFstep] at l1
        exact l1.trans hT
      obtain ⟨ihrel, ihent⟩ := ih cF' cO' hAg' hT'
      rcases hFrest : enrichAll envF now cF' rest with ⟨infosF, csF2, mF⟩
      rcases hOrest : enrichAll envO now cO' rest with ⟨infosO, csO2, mO⟩
      have hFall : (enrichAll envF now cF (tk :: rest)).1 = infoF :: infosF := by
        unfold enrichAll
        simp [hFstep, hFrest]
      have hOall : (enrichAll envO now cO (tk :: rest)).1 = infoO :: infosO := by
        unfold enrichAll
        simp [hOstep, hOrest]
      rw [hFrest, hOrest] at ihrel
      rw [hFrest] at ihent
      rw [hFall, hOall]
      refine ⟨List.Forall₂.cons ⟨by rw [hinfo'], fun _ => hinfo'⟩ ihrel, ?_⟩
      intro i hi ht
      rcases List.mem_cons.mp hi with h | h
      · subst h
        exact absurd (hFtick.symm.trans ht) htk
      · exact ihent i h ht

/-- Membership after a sorted insertion. -/
theorem mem_insertSorted (a x : Subscription) :
    ∀ l : List Subscription, x ∈ insertSorted a l ↔ x = a ∨ x ∈ l := by
  intro l
  induction l with
  | nil => simp [insertSorted]
  | cons b t ih =>
    unfold insertSorted
    by_cases h : subLE a b
    · simp [h]
    · simp only [h, Bool.false_eq_true, if_false, List.mem_cons, ih]
      tauto

/-- Sorting a group preserves membership. -/
theorem mem_sortSubs (x : Subscription) :
    ∀ l : List Subscription, x ∈ sortSubs l ↔ x ∈ l := by
  intro l
  induction l with
  | nil => simp [sortSubs]
  | cons a t ih =>
    unfold sortSubs
    rw [mem_insertSorted, ih, List.mem_cons]

/-- Position-by-position agreement away from `T` makes ticker lookups agree
for every ticker other than `T`. -/
theorem infoFor_eq_of_rel (T : String) :
    ∀ {l1 l2 : List TickerInfo}, List.Forall₂ (infoAgreeOff T) l1 l2 →
      ∀ tk, tk ≠ T → infoFor l1 tk = infoFor l2 tk := by
  intro l1 l2 hrel
  induction hrel with
  | nil => intro tk _; rfl
  | @cons a b l1' l2' h1 h2 ih =>
    intro tk htk
    obtain ⟨htick, himp⟩ := h1
    show List.find? (fun i => i.ticker == tk) (a :: l1')
        = List.find? (fun i => i.ticker == tk) (b :: l2')
    by_cases he : (a.ticker == tk) = true
    · have hae : a.ticker = tk := by simpa using he
      have hab : a = b := himp (by rw [hae]; exact htk)
      subst hab
      rw [@List.find?_cons_of_pos _ (fun i => i.ticker == tk) a l1' he,
        @List.find?_cons_of_pos _ (fun i => i.ticker == tk) a l2' he]
    · have he' : ¬((b.ticker == tk) = true) := by
        rw [← htick]
        exact he
      rw [@List.find?_cons_of_neg _ (fun i => i.ticker == tk) a l1' he,
        @List.find?_cons_of_neg _ (fun i => i.ticker == tk) b l2' he']
      exact ih tk htk

/-- A subscription line for a ticker other than `T` renders identically
from the two runs' enrichment data. -/
theorem renderLine_congr (T : String) (l1 l2 : List TickerInfo)
    (hrel : List.Forall₂ (infoAgreeOff T) l1 l2) (s : Subscription)
    (hs : s.ticker ≠ T) :
    renderLine l1 s = renderLine l2 s := by
  unfold renderLine
  rw [infoFor_eq_of_rel T hrel s.ticker hs]

/-- A subscription line for the failing ticker renders as unavailable. -/
theorem renderLine_unavailable (T : String) (l1 : List TickerInfo)
    (hent : ∀ i ∈ l1, i.ticker = T → i = ⟨T, none, none⟩)
    (s : Subscription) (hs : s.ticker = T) :
    renderLine l1 s = s.ticker ++ ": unavailable" := by
  unfold renderLine
  cases hf : infoFor l1 s.ticker with
  | none => rfl
  | some i =>
    unfold infoFor at hf
    have hmem : i ∈ l1 := List.mem_of_find?_eq_some hf
    have hp := List.find?_some hf
    have h' : i.ticker = s.ticker := by simpa using hp
    have hi : i = ⟨T, none, none⟩ := hent i hmem (by rw [h', hs])
    rw [hi]

/-- A recipient group avoiding `T` produces the same send record in the
failing run as in the run where the fetch for `T` succeeds. -/
theorem groupSend_congr (envF envO : Env) (T : String) (l1 l2 : List TickerInfo)
    (hMail : envO.emailTransport = envF.emailTransport)
    (hrel : List.Forall₂ (infoAgreeOff T) l1 l2)
    (g : String × List Subscription) (hg : ∀ s ∈ g.2, s.ticker ≠ T) :
    groupSend envF l1 g = groupSend envO l2 g := by
  unfold groupSend
  have hlines : (sortSubs g.2).map (renderLine l1) = (sortSubs g.2).map (renderLine l2) :=
    List.map_congr_left
      (fun s hs => renderLine_congr T l1 l2 hrel s (hg s ((mem_sortSubs s g.2).mp hs)))
  rw [hlines, hMail]

/-- C5: a run in which the external price fetch fails for ticker `T` (with
`T` absent from the price cache, and compared against the environment
differing only in that the fetch for `T` succeeds) still completes with a
summary, still hands exactly one merged email per distinct recipient to
the transport, renders every recipient group that avoids `T` identically
to the successful-fetch run, and renders every subscription line for `T`
with its price marked unavailable; the failure aborts nothing. -/
theorem price_failure_contained (envF envO : Env) (T : String) (now : WallClock)
    (ch : Channel) (selected : List Subscription) (st : SystemState)
    (hF : envF.priceService T = none)
    (_hOk : envO.priceService T ≠ none)
    (hOff : ∀ tk, tk ≠ T → envO.priceService tk = envF.priceService tk)
    (hai : envO.aiService = envF.aiService)
    (hMail : envO.emailTransport = envF.emailTransport)
    (hNoT : priceFind st.priceCache T = none) :
    (∃ s, (executeBatch envF now ch selected st).1 = RunOutcome.completed s) ∧
    (executeBatch envF now ch selected st).2.outbox.length
      = st.outbox.length + ((selected.map Subscription.recipientEmail).dedup).length ∧
    (∀ g ∈ groupByRecipient selected, (∀ s ∈ g.2, s.ticker ≠ T) →
      groupSend envF
          (enrichAll envF now.absMinutes ⟨st.priceCache, st.recCache⟩
            (firstOccur (selected.map Subscription.ticker))).1 g
        = groupSend envO
            (enrichAll envO now.absMinutes ⟨st.priceCache, st.recCache⟩
              (firstOccur (selected.map Subscription.ticker))).1 g) ∧
    (∀ g ∈ groupByRecipient selected, ∀ s ∈ g.2, s.ticker = T →
      renderLine
          (enrichAll envF now.absMinutes ⟨st.priceCache, st.recCache⟩
            (firstOccur (selected.map Subscription.ticker))).1 s
        = s.ticker ++ ": unavailable") := by
  obtain ⟨hrel, hent⟩ := enrichAll_fail_ok envF envO T hF hOff hai now.absMinutes
    (firstOccur (selected.map Subscription.ticker))
    ⟨st.priceCache, st.recCache⟩ ⟨st.priceCache, st.recCache⟩
    ⟨fun _ _ => rfl, fun _ _ _ => rfl⟩ hNoT
  refine ⟨⟨_, rfl⟩, executeBatch_outbox_len envF now ch selected st, ?_, ?_⟩
  · intro g _ hg
    exact groupSend_congr envF envO T _ _ hMail hrel g hg
  · intro g _ s hs hT
    exact renderLine_unavailable T _ hent s hT

/-- Witness for `price_failure_contained`: the fetch for `XYZ` fails, the
other ticker still succeeds, and the run completes. -/
theorem price_failure_contained_witness :
    ∃ s, (executeBatch envFailEx wkTue Channel.manual [subA, subB] stEmpty).1
      = RunOutcome.completed s :=
  (price_failure_contained envFailEx envOkEx "XYZ" wkTue Channel.manual [subA, subB]
    stEmpty rfl (by decide)
    (fun tk h => by
      have hbe : (tk == "XYZ") = false := beq_eq_false_iff_ne.mpr h
      simp [envOkEx, envFailEx, hbe, h])
    rfl rfl rfl).1

end StockMonitor
